import Mathlib

/-!
Verification of the E906 DAQ upgrade embedded spill-transfer engine
(src/ARM/TWTDCEmbedded/main.c) against its natural-language design
specification.

The program moves detector data between a dual-port RAM ("DP", 16 banks of
1024 32-bit words, also used as the outgoing mailbox) and SDRAM (the staging
buffer), governed by a three-state spill machine (BOS / EOS / READY).
Everything below is a shallow embedding of that C file: machine words are
naturals reduced mod 2^32 where overflow matters, pointer arithmetic is done
at word granularity (a C pointer increment of one `unsigned long*` step is
`+ 1` here, so byte addresses from the source appear divided by 4), memories
are functions from word addresses to values, and the SDRAM staging content is
the list of words written since the start of the spill (the write cursor
`sdAddr - sdStartAddr` is its length).
-/

/-- Size of the dual-port RAM in 32-bit words (`NDPWORDS`, 0x8000). -/
def NDPWORDS : Nat := 0x8000

/-- Number of DP data banks (`NBANKS`). -/
def NBANKS : Nat := 16

/-- Words per DP bank (`NWORDSPERBANK`, 1K 32-bit words). -/
def NWORDSPERBANK : Nat := 0x400

/-- Mask selecting the word-count field of a bank header (`NWORDSMASK`). -/
def NWORDSMASK : Nat := 0x7ff00000

/-- Mask used for round-robin bank-index wrapping (`BANKIDMASK`). -/
def BANKIDMASK : Nat := 0x0000000f

/-- System state: beam on, DP is being drained into SDRAM (`BOS`). -/
def BOS : Nat := 0x0

/-- System state: beam off, SDRAM is being drained into DP (`EOS`). -/
def EOS : Nat := 0x1

/-- System state: transfer done, ready for the next spill (`READY`). -/
def READY : Nat := 0x2

/-- One machine word is 32 bits; values wrap mod this (2^32). -/
def wordMod : Nat := 4294967296

/-- Word-granular address of `dpStartAddr` (byte address 0x50000000 / 4). -/
def dpStartAddr : Nat := 0x14000000

/-- Word-granular address of `sdStartAddr` (byte address 0x20008000 / 4). -/
def sdStartAddr : Nat := 0x08002000

/-- Word-granular address of `sdEndAddr` (byte address 0x23f00000 / 4). -/
def sdEndAddr : Nat := 0x08fc0000

/-- Capacity of the SDRAM staging region in words (`sdEndAddr - sdStartAddr`). -/
def sdCapacity : Nat := sdEndAddr - sdStartAddr

/-- Per-bank base addresses as computed by `init`:
`dpBankStartAddr[0] = dpStartAddr` before the loop, and
`dpBankStartAddr[i] = dpBankStartAddr[i-1] + NWORDSPERBANK` for `i = 1..15`. -/
def dpBankStartAddr : Nat → Nat
  | 0 => dpStartAddr
  | i + 1 => dpBankStartAddr i + NWORDSPERBANK

/-- Per-bank footer (eventID) addresses as computed by `init`.  The loop in
`init` runs from `i = 1` and sets
`dpBankLastAddr[i] = dpBankStartAddr[i] + NWORDSPERBANK - 3`; index 0 is
never assigned, so it keeps the zero initialization a C global array gets. -/
def dpBankLastAddr : Nat → Nat
  | 0 => 0
  | i + 1 => dpBankStartAddr (i + 1) + NWORDSPERBANK - 3

/-- Word count decoded from a bank header: `(header & NWORDSMASK) >> 20`. -/
def wordCount (header : Nat) : Nat := (header &&& NWORDSMASK) >>> 20

/-- Number of iterations of the payload-copy loop
`unsigned int i = nWords - 1; for(; i != 0; --i)`: the 32-bit unsigned value
of `nWords - 1`, which wraps to `2^32 - 1` when `nWords = 0`. -/
def payloadCount (nWords : Nat) : Nat := (nWords + (wordMod - 1)) % wordMod

/-- The words one outer-loop iteration of `beamOnTransfer` appends to SDRAM
for the bank `b` whose header `header` it consumed: the header itself
(line 141), then `payloadCount` words read from `dpBankStartAddr[b] + 1`
onward, each stored as `*dpAddr + 1` ("this is for testing only", line 148),
then the eventID word read from `dpBankLastAddr[b]` (lines 135 and 156). -/
def recordWords (mem : Nat → Nat) (b : Nat) (header : Nat) : List Nat :=
  header ::
    ((List.range (payloadCount (wordCount header))).map
        (fun k => (mem (dpBankStartAddr b + 1 + k) + 1) % wordMod)
      ++ [mem (dpBankLastAddr b)])

/-- Shared mutable state of the program, at word granularity.
`state` and `nWordsTotal` are the two `volatile` globals; `dpMem` is the
dual-port RAM (headers, payload and footers written by the FPGA, re-read and
cleared by `beamOnTransfer`); `sd` is the list of words written to SDRAM
since the start of the current spill, so the SDRAM write cursor
`sdAddr - sdStartAddr` is `sd.length`; `currentSDOff` is the read cursor
`currentSDAddr - sdStartAddr` in words; `currentDPBank` is the round-robin
bank cursor local to `beamOnTransfer` (kept here so successive loop
iterations can be modelled as separate steps). -/
structure Sys where
  state : Nat
  nWordsTotal : Nat
  dpMem : Nat → Nat
  sd : List Nat
  currentSDOff : Nat
  currentDPBank : Nat

/-- Result of one invocation of `beamOffTransfer`: the new shared state, the
words written to the DP mailbox starting at `dpStartAddr` (the count word
followed by the copied words), and the successive values assigned to the
`state` global during the call, in program order. -/
structure DrainOut where
  sys : Sys
  mailbox : List Nat
  stTrace : List Nat

/-- One invocation of `beamOffTransfer` (lines 181-239), parametrised by the
level `dp_lev` returned by `PIO_Get(&pinPC11)`.  If the level is 1 the call
returns at line 189 having changed nothing.  Otherwise: on first entry in
the spill (`state == BOS`) it sets `state = EOS` and resets the SD read
pointer; it then computes `nWords = min(NDPWORDS - 1, nWordsTotal)`, writes
`nWords` to the first DP word followed by `nWords` words read from
`currentSDAddr` onward, subtracts `nWords` from `nWordsTotal`, and sets
`state = READY` exactly when the new `nWordsTotal` is 0.  (The reads of
`*dpIntAddr` and `PIO_GetISR` only clear the interrupt latch and touch none
of the modelled state.) -/
def beamOffTransfer (s : Sys) (lev : Nat) : DrainOut :=
  if lev = 1 then ⟨s, [], []⟩
  else
    let s1 := if s.state = BOS then { s with state := EOS, currentSDOff := 0 } else s
    let t1 : List Nat := if s.state = BOS then [EOS] else []
    let n := min (NDPWORDS - 1) s1.nWordsTotal
    let body := (List.range n).map (fun k => s1.sd.getD (s1.currentSDOff + k) 0)
    let s2 := { s1 with currentSDOff := s1.currentSDOff + n,
                        nWordsTotal := s1.nWordsTotal - n }
    if s2.nWordsTotal = 0 then ⟨{ s2 with state := READY }, n :: body, t1 ++ [READY]⟩
    else ⟨s2, n :: body, t1⟩

/-- The header scan of `beamOnTransfer` (lines 118-125).  Starting at bank
`cur` it reads that bank's header; while the header is 0 it advances to
`(cur + 1) & BANKIDMASK`, reads the new header, and then breaks out of the
scan if the `state` global is observed not to be `BOS` any more — note that
the break fires on the observation alone, whatever the header just read.
`obs` is the sequence of values of `state` at the successive line-124
checks; `none` means the scan was still running when the supplied
observations ran out. -/
def scanBank (mem : Nat → Nat) : Nat → List Nat → Option (Nat × Nat)
  | cur, obs =>
    let header := mem (dpBankStartAddr cur)
    if header ≠ 0 then some (cur, header)
    else
      match obs with
      | [] => none
      | o :: rest =>
        let cur2 := (cur + 1) &&& BANKIDMASK
        let header2 := mem (dpBankStartAddr cur2)
        if o ≠ BOS then some (cur2, header2)
        else if header2 ≠ 0 then some (cur2, header2)
        else scanBank mem cur2 rest

/-- One iteration of the outer `while(state == BOS)` loop of
`beamOnTransfer` (lines 115-171): scan for the next bank, then
unconditionally consume it — append `recordWords` to SDRAM (lines 140-157),
zero the consumed bank's header (line 160), advance the bank cursor
(line 161) and set `nWordsTotal` to the new SDRAM write-cursor offset
(line 164).  Besides the new state it returns which bank was consumed and
the header value it was consumed with. -/
def ingestIter (s : Sys) (obs : List Nat) : Option (Sys × Nat × Nat) :=
  match scanBank s.dpMem s.currentDPBank obs with
  | none => none
  | some (c, header) =>
    let ws := recordWords s.dpMem c header
    some ({ s with
              dpMem := fun a => if a = dpBankStartAddr c then 0 else s.dpMem a,
              sd := s.sd ++ ws,
              currentDPBank := (c + 1) &&& BANKIDMASK,
              nWordsTotal := s.sd.length + ws.length },
          c, header)

/-- A run of successive `beamOnTransfer` loop iterations: `sched` supplies
each iteration's scan observations; the run stops early if a scan is still
in progress when its observations run out.  Returns the final state and the
headers of the consumed banks in consumption order. -/
def ingestRun : Sys → List (List Nat) → Sys × List Nat
  | s, [] => (s, [])
  | s, obs :: sched =>
    match ingestIter s obs with
    | none => (s, [])
    | some (s2, _, header) =>
      let r := ingestRun s2 sched
      (r.1, header :: r.2)

/-- Effect of `init` (lines 74-100) on the shared state, as called from
`beamOnTransfer` together with that function's own local initialisation
(lines 113-114): every bank header in DP is cleared, `state` is set to
`BOS`, `nWordsTotal` to 0, the SDRAM write cursor back to `sdStartAddr`
(empty `sd`), and the bank cursor to 0.  The SD read pointer `currentSDAddr`
is not touched by `init`. -/
def initSys (s : Sys) : Sys :=
  { state := BOS
    nWordsTotal := 0
    dpMem := fun a =>
      if (List.range NBANKS).any (fun i => a = dpBankStartAddr i) then 0 else s.dpMem a
    sd := []
    currentSDOff := s.currentSDOff
    currentDPBank := 0 }

/-- The transitions the spill state is allowed to make, per the design:
either no change, or one arc of the cycle READY → BOS → EOS → READY. -/
@[reducible] def cycleOK (a b : Nat) : Prop :=
  a = b ∨ (a = READY ∧ b = BOS) ∨ (a = BOS ∧ b = EOS) ∨ (a = EOS ∧ b = READY)

/-- Atomic steps of the whole program, each labelled with the successive
values assigned to the `state` global during the step.  `enterBeamOn` is the
main loop observing `state == READY` (line 320) and running `init` inside
`beamOnTransfer`; `ingest` is one iteration of the `while(state == BOS)`
loop; `drain` is one `beamOffTransfer` invocation, possible at any time
since it runs in interrupt context. -/
inductive SysStep : Sys → List Nat → Sys → Prop where
  | enterBeamOn (s : Sys) (h : s.state = READY) : SysStep s [BOS] (initSys s)
  | ingest (s : Sys) (obs : List Nat) (r : Sys × Nat × Nat) (h : s.state = BOS)
      (h2 : ingestIter s obs = some r) : SysStep s [] r.1
  | drain (s : Sys) (lev : Nat) :
      SysStep s (beamOffTransfer s lev).stTrace (beamOffTransfer s lev).sys

/-- Concatenated mailbox bodies (the words after the count word) of `j`
successive `beamOffTransfer` invocations that all pass the level check. -/
def drainBodies : Sys → Nat → List Nat
  | _, 0 => []
  | s, j + 1 => (beamOffTransfer s 0).mailbox.tail ++ drainBodies (beamOffTransfer s 0).sys j

/-- The primitive shared-memory operations one `beamOnTransfer` loop
iteration performs after the scan, in program order: words appended to
SDRAM, the consumed bank's header cleared, `nWordsTotal` assigned. -/
inductive MicroOp where
  | pushSD : Nat → MicroOp
  | clearHeader : Nat → MicroOp
  | setTotal : Nat → MicroOp

/-- Whether a primitive operation is an assignment to `nWordsTotal`. -/
def isSetTotal : MicroOp → Bool
  | .setTotal _ => true
  | _ => false

/-- The operation sequence of lines 140-164 for one consumed record, where
`base` is the SDRAM write-cursor offset when the iteration starts: push all
of `recordWords` (lines 141-157), clear the bank header (line 160), then
store the new write-cursor offset into `nWordsTotal` (line 164). -/
def recordTrace (mem : Nat → Nat) (b header base : Nat) : List MicroOp :=
  (recordWords mem b header).map MicroOp.pushSD ++
    [MicroOp.clearHeader b,
     MicroOp.setTotal (base + (recordWords mem b header).length)]

/-- The part of the shared state the record-copy operations touch. -/
structure MicroState where
  sd : List Nat
  nWordsTotal : Nat
  dpMem : Nat → Nat

/-- Semantics of one primitive operation. -/
def applyOp (st : MicroState) : MicroOp → MicroState
  | .pushSD w => { st with sd := st.sd ++ [w] }
  | .clearHeader b =>
      { st with dpMem := fun a => if a = dpBankStartAddr b then 0 else st.dpMem a }
  | .setTotal n => { st with nWordsTotal := n }

/-- Semantics of an operation sequence. -/
def applyOps : MicroState → List MicroOp → MicroState := List.foldl applyOp

/-- A header whose word-count field decodes to 2. -/
def hdrTwo : Nat := 0x200000

/-- DP memory holding one record in bank 1: header `hdrTwo`, one payload
word 5, footer 77, all other words 0. -/
def memOne : Nat → Nat := fun a =>
  if a = dpBankStartAddr 1 then hdrTwo
  else if a = dpBankStartAddr 1 + 1 then 5
  else if a = dpBankLastAddr 1 then 77
  else 0

/-- DP memory with every word 0 (all banks empty). -/
def memZero : Nat → Nat := fun _ => 0

/-- A beam-on state at the start of a spill, bank cursor at bank 1, with
`memOne` in DP. -/
def sysOne : Sys :=
  { state := BOS, nWordsTotal := 0, dpMem := memOne, sd := [],
    currentSDOff := 0, currentDPBank := 1 }

/-- A beam-on state with all banks empty, bank cursor at bank 0. -/
def sysIdle : Sys :=
  { state := BOS, nWordsTotal := 0, dpMem := memZero, sd := [],
    currentSDOff := 0, currentDPBank := 0 }

/-- A beam-on state whose staging buffer is exactly full. -/
def sysFull : Sys :=
  { state := BOS, nWordsTotal := sdCapacity, dpMem := memOne,
    sd := List.replicate sdCapacity 0, currentSDOff := 0, currentDPBank := 1 }

/-- The state after `sysOne` ingests its single record: the staged words are
`recordWords memOne 1 hdrTwo` and the spill is still in beam-on. -/
def sysRec : Sys :=
  { state := BOS, nWordsTotal := (recordWords memOne 1 hdrTwo).length,
    dpMem := memOne, sd := recordWords memOne 1 hdrTwo,
    currentSDOff := 0, currentDPBank := 2 }

/-- A beam-off state mid-drain with three staged words left. -/
def sysDrain : Sys :=
  { state := EOS, nWordsTotal := 3, dpMem := memZero, sd := [11, 22, 33],
    currentSDOff := 0, currentDPBank := 0 }

/-- Length of a consumed record is determined by its header alone. -/
theorem recordWords_length (mem : Nat → Nat) (b header : Nat) :
    (recordWords mem b header).length = payloadCount (wordCount header) + 2 := by
  unfold recordWords
  rw [List.length_cons, List.length_append, List.length_map, List.length_range,
    List.length_singleton]

/-- For a well-formed header (count field at least 1) the payload loop runs
`wordCount header - 1` times. -/
theorem payloadCount_of_pos {n : Nat} (h : 1 ≤ n) (h32 : n < wordMod) :
    payloadCount n = n - 1 := by
  unfold payloadCount wordMod at *
  omega

/-- The decoded word count is below 2^32 (it is in fact at most 0x7ff). -/
theorem wordCount_lt (header : Nat) : wordCount header < wordMod := by
  have h : header &&& NWORDSMASK ≤ NWORDSMASK := Nat.and_le_right
  unfold wordCount wordMod
  unfold NWORDSMASK at *
  omega

/-- Unfolding of a successful `ingestIter`. -/
theorem ingestIter_eq (s : Sys) (obs : List Nat) (c header : Nat)
    (h : scanBank s.dpMem s.currentDPBank obs = some (c, header)) :
    ingestIter s obs =
      some ({ s with
                dpMem := fun a => if a = dpBankStartAddr c then 0 else s.dpMem a,
                sd := s.sd ++ recordWords s.dpMem c header,
                currentDPBank := (c + 1) &&& BANKIDMASK,
                nWordsTotal := s.sd.length + (recordWords s.dpMem c header).length },
            c, header) := by
  unfold ingestIter
  rw [h]

/-- Inversion of a successful `ingestIter`. -/
theorem ingestIter_some {s : Sys} {obs : List Nat} {s2 : Sys} {c header : Nat}
    (h : ingestIter s obs = some (s2, c, header)) :
    scanBank s.dpMem s.currentDPBank obs = some (c, header) ∧
    s2.sd = s.sd ++ recordWords s.dpMem c header ∧
    s2.nWordsTotal = s.sd.length + (recordWords s.dpMem c header).length ∧
    s2.state = s.state ∧ s2.currentSDOff = s.currentSDOff ∧
    s2.currentDPBank = (c + 1) &&& BANKIDMASK := by
  unfold ingestIter at h
  cases hscan : scanBank s.dpMem s.currentDPBank obs with
  | none => rw [hscan] at h; exact absurd h (by simp)
  | some p =>
    obtain ⟨c2, header2⟩ := p
    rw [hscan] at h
    simp only [Option.some.injEq, Prod.mk.injEq] at h
    obtain ⟨hs2, hc, hh⟩ := h
    subst hc; subst hh; subst hs2
    exact ⟨rfl, rfl, rfl, rfl, rfl, rfl⟩

/-- Unfolding of an `ingestRun` step whose scan ran out of observations. -/
theorem ingestRun_cons_none {s : Sys} {obs : List Nat} {sched : List (List Nat)}
    (h : ingestIter s obs = none) : ingestRun s (obs :: sched) = (s, []) := by
  unfold ingestRun
  rw [h]

/-- Unfolding of an `ingestRun` step that consumed a record. -/
theorem ingestRun_cons_some {s : Sys} {obs : List Nat} {sched : List (List Nat)}
    {s2 : Sys} {c header : Nat} (h : ingestIter s obs = some (s2, c, header)) :
    ingestRun s (obs :: sched) =
      ((ingestRun s2 sched).1, header :: (ingestRun s2 sched).2) := by
  conv_lhs => unfold ingestRun
  rw [h]

/-- C3: the drain handler is a no-op under spurious or duplicate edges — at
the level reading that fails the line-189 edge check (`dp_lev == 1`), one
call and also two back-to-back calls with nothing acknowledged in between
change neither the shared state (in particular `nWordsTotal` and `state`)
nor write anything to the mailbox. -/
theorem drain_noop_on_spurious_edge (s : Sys) :
    (beamOffTransfer s 1).sys = s ∧
    (beamOffTransfer (beamOffTransfer s 1).sys 1).sys = s ∧
    (beamOffTransfer s 1).sys.nWordsTotal = s.nWordsTotal ∧
    (beamOffTransfer s 1).sys.state = s.state ∧
    (beamOffTransfer s 1).mailbox = [] := by
  have h : beamOffTransfer s 1 = ⟨s, [], []⟩ := by
    unfold beamOffTransfer
    rw [if_pos rfl]
  simp only [h]
  exact ⟨trivial, trivial, trivial, trivial, trivial⟩

/-- C9: the footer is NOT read from offset `C - 3` past the bank base for
every bank.  `init` computes `dpBankLastAddr[i] = dpBankStartAddr[i] +
NWORDSPERBANK - 3` only for `i = 1..15`; `dpBankLastAddr[0]` is never
assigned and keeps its zero initialization, so bank 0's footer is read from
address 0 instead of `dpBankStartAddr[0] + 1021`. -/
theorem footer_offset_bank0_bug :
    dpBankLastAddr 0 = 0 ∧
    dpBankStartAddr 0 + (NWORDSPERBANK - 3) = 0x140003fd ∧
    dpBankLastAddr 0 ≠ dpBankStartAddr 0 + (NWORDSPERBANK - 3) ∧
    ((List.range (NBANKS - 1)).all
      (fun j => dpBankLastAddr (j + 1) == dpBankStartAddr (j + 1) + (NWORDSPERBANK - 3)))
      = true := by
  decide

/-- C6: the ingest payload copy is not verbatim — the word staged for the
payload word 5 of the record in bank 1 is 6, because line 148 stores
`*dpAddr + 1` ("this is for testing only"). -/
theorem payload_copy_not_verbatim :
    memOne (dpBankStartAddr 1 + 1) = 5 ∧
    recordWords memOne 1 hdrTwo = [hdrTwo, 6, 77] ∧
    (recordWords memOne 1 hdrTwo).getD 1 0 ≠ memOne (dpBankStartAddr 1 + 1) := by
  decide

/-- C1 counterexample: a consumed bank whose (nonzero) header encodes word
count 0 does not push `0 + 1` words — the `nWords - 1` loop counter wraps to
`2^32 - 1`, so `2^32 + 1` words are pushed. -/
theorem record_length_fails_on_zero_count :
    (1 : Nat) ≠ 0 ∧ wordCount 1 = 0 ∧
    (recordWords memZero 1 1).length = 4294967297 ∧
    (recordWords memZero 1 1).length ≠ wordCount 1 + 1 := by
  have h : payloadCount (wordCount 1) = 4294967295 := by decide
  have hl : (recordWords memZero 1 1).length = 4294967297 := by
    rw [recordWords_length, h]
  refine ⟨by decide, by decide, hl, ?_⟩
  rw [hl]
  decide

/-- C1 (amended to headers whose encoded count is at least 1): each consumed
record contributes the header word, `wordCount header - 1` payload words and
the footer word, `wordCount header + 1` words in total, and after any run of
ingest iterations whose consumed headers all have positive counts,
`nWordsTotal` equals the prior write-cursor offset plus the sum of
`wordCount header + 1` over the consumed records. -/
theorem ingest_accounting :
    (∀ (mem : Nat → Nat) (b header : Nat), 1 ≤ wordCount header →
      (recordWords mem b header).length = wordCount header + 1 ∧
      ∃ payload : List Nat, payload.length = wordCount header - 1 ∧
        recordWords mem b header = header :: payload ++ [mem (dpBankLastAddr b)]) ∧
    (∀ (sched : List (List Nat)) (s : Sys), s.nWordsTotal = s.sd.length →
      (∀ header ∈ (ingestRun s sched).2, 1 ≤ wordCount header) →
      (ingestRun s sched).1.nWordsTotal =
        s.sd.length + (((ingestRun s sched).2).map (fun header => wordCount header + 1)).sum) := by
  constructor
  · intro mem b header hpos
    have hpc := payloadCount_of_pos hpos (wordCount_lt header)
    constructor
    · rw [recordWords_length, hpc]
      omega
    · refine ⟨(List.range (wordCount header - 1)).map
        (fun k => (mem (dpBankStartAddr b + 1 + k) + 1) % wordMod), ?_, ?_⟩
      · rw [List.length_map, List.length_range]
      · unfold recordWords
        rw [hpc, List.cons_append]
  · intro sched
    induction sched with
    | nil =>
      intro s hs hall
      simpa using hs
    | cons obs sched ih =>
      intro s hs hall
      cases hit : ingestIter s obs with
      | none =>
        rw [ingestRun_cons_none hit]
        simpa using hs
      | some r =>
        obtain ⟨s2, c, header⟩ := r
        rw [ingestRun_cons_some hit]
        obtain ⟨-, hsd, htot, -, -, -⟩ := ingestIter_some hit
        have hs2 : s2.nWordsTotal = s2.sd.length := by
          rw [htot, hsd, List.length_append]
        have hall2 : ∀ x ∈ (ingestRun s2 sched).2, 1 ≤ wordCount x := by
          intro x hx
          exact hall x (by rw [ingestRun_cons_some hit]; exact List.mem_cons_of_mem _ hx)
        have hpos : 1 ≤ wordCount header :=
          hall header (by rw [ingestRun_cons_some hit]; exact List.mem_cons_self _ _)
        have hws : (recordWords s.dpMem c header).length = wordCount header + 1 := by
          rw [recordWords_length, payloadCount_of_pos hpos (wordCount_lt header)]
          omega
        have hlen : s2.sd.length = s.sd.length + (wordCount header + 1) := by
          rw [hsd, List.length_append, hws]
        rw [List.map_cons, List.sum_cons, ih s2 hs2 hall2, hlen]
        omega

/-- C1 witness: the single record in bank 1 (count field 2) pushes 3 words,
and a one-iteration run books exactly those 3 words into `nWordsTotal`. -/
theorem ingest_accounting_witness :
    (recordWords memOne 1 hdrTwo).length = wordCount hdrTwo + 1 ∧
    (ingestRun sysOne [[]]).1.nWordsTotal =
      sysOne.sd.length +
        (((ingestRun sysOne [[]]).2).map (fun header => wordCount header + 1)).sum :=
  ⟨(ingest_accounting.1 memOne 1 hdrTwo (by decide)).1,
   ingest_accounting.2 [[]] sysOne rfl (by decide)⟩

/-- C8: if the scan observes the state leave beam-on while all headers are
zero, the iteration does NOT exit without consuming — the line-124 `break`
only leaves the inner scan loop, so the iteration falls through and
"consumes" the zero header of the bank the scan stopped at: it advances the
bank cursor past bank 1 and pushes `2^32 + 1` words (`nWords = 0`, so the
`nWords - 1` loop counter wraps) instead of pushing nothing. -/
theorem interrupted_scan_still_consumes :
    scanBank memZero 0 [EOS] = some (1, 0) ∧
    EOS ≠ BOS ∧
    memZero (dpBankStartAddr 0) = 0 ∧ memZero (dpBankStartAddr 1) = 0 ∧
    ∃ s2 : Sys, ingestIter sysIdle [EOS] = some (s2, 1, 0) ∧
      s2.nWordsTotal = 4294967297 ∧ s2.sd.length = 4294967297 ∧
      s2.currentDPBank = 2 := by
  have hscan : scanBank sysIdle.dpMem sysIdle.currentDPBank [EOS] = some (1, 0) := by
    decide
  have hrec : (recordWords sysIdle.dpMem 1 0).length = 4294967297 := by
    have h : payloadCount (wordCount 0) = 4294967295 := by decide
    rw [recordWords_length, h]
  have h0 : sysIdle.sd.length = 0 := rfl
  have hEq := ingestIter_eq sysIdle [EOS] 1 0 hscan
  obtain ⟨-, hsd, htot, -, -, hbank⟩ := ingestIter_some hEq
  refine ⟨by decide, by decide, by decide, by decide, _, hEq, ?_, ?_, ?_⟩
  · rw [htot, hrec, h0, Nat.zero_add]
  · rw [hsd, List.length_append, hrec, h0, Nat.zero_add]
  · rw [hbank]
    decide

/-- C7: the staging-buffer overflow is neither detected nor reported — the
checks at lines 130-131 are commented out.  From a state whose staging
buffer already holds exactly `sdCapacity` words (the full SDRAM region), an
ingest iteration still consumes the pending 3-word record and leaves
`nWordsTotal = sdCapacity + 3`, i.e. the write cursor ends past `sdEndAddr`
with no error of any kind signalled. -/
theorem staging_overflow_unchecked :
    sysFull.sd.length = sdCapacity ∧
    (∃ s2 : Sys, ingestIter sysFull [] = some (s2, 1, hdrTwo) ∧
      s2.nWordsTotal = sdCapacity + 3) ∧
    sdCapacity < sdCapacity + 3 := by
  have hscan : scanBank sysFull.dpMem sysFull.currentDPBank [] = some (1, hdrTwo) := by
    decide
  have hrec : (recordWords sysFull.dpMem 1 hdrTwo).length = 3 := by decide
  have hl : sysFull.sd.length = sdCapacity := List.length_replicate sdCapacity 0
  have hEq := ingestIter_eq sysFull [] 1 hdrTwo hscan
  obtain ⟨-, -, htot, -, -, -⟩ := ingestIter_some hEq
  exact ⟨hl, ⟨_, hEq, by rw [htot, hrec, hl]⟩, by omega⟩

/-- The line-217 copy loop writes the words of `l` from offset `r` on. -/
theorem range_map_getD_eq (l : List Nat) (r n : Nat) (h : r + n ≤ l.length) :
    (List.range n).map (fun k => l.getD (r + k) 0) = (l.drop r).take n := by
  apply List.ext_getElem
  · rw [List.length_map, List.length_range, List.length_take, List.length_drop]
    omega
  · intro i h1 h2
    rw [List.length_map, List.length_range] at h1
    rw [List.getElem_map, List.getElem_range, List.getElem_take, List.getElem_drop]
    exact List.getD_eq_getElem l 0 (by omega)

/-- Exact effect of a `beamOffTransfer` invocation that passes the line-189
level check, on a state whose read cursor is consistent (`currentSDOff +
nWordsTotal = sd.length`, with the cursor at 0 if the spill is still in
beam-on, since the first entry resets it). -/
theorem beamOff_fires (s : Sys) (lev : Nat) (hlev : lev ≠ 1)
    (hb : s.state = BOS → s.currentSDOff = 0)
    (hc : s.currentSDOff + s.nWordsTotal = s.sd.length) :
    (beamOffTransfer s lev).mailbox =
      min (NDPWORDS - 1) s.nWordsTotal ::
        (s.sd.drop s.currentSDOff).take (min (NDPWORDS - 1) s.nWordsTotal) ∧
    (beamOffTransfer s lev).sys.nWordsTotal
      = s.nWordsTotal - min (NDPWORDS - 1) s.nWordsTotal ∧
    (beamOffTransfer s lev).sys.currentSDOff
      = s.currentSDOff + min (NDPWORDS - 1) s.nWordsTotal ∧
    (beamOffTransfer s lev).sys.sd = s.sd ∧
    (beamOffTransfer s lev).sys.dpMem = s.dpMem ∧
    (beamOffTransfer s lev).sys.state =
      (if s.nWordsTotal - min (NDPWORDS - 1) s.nWordsTotal = 0 then READY
       else if s.state = BOS then EOS else s.state) ∧
    (beamOffTransfer s lev).stTrace =
      (if s.state = BOS then [EOS] else []) ++
        (if s.nWordsTotal - min (NDPWORDS - 1) s.nWordsTotal = 0 then [READY] else []) := by
  have hn : min (NDPWORDS - 1) s.nWordsTotal ≤ s.nWordsTotal := Nat.min_le_right _ _
  by_cases hB : s.state = BOS
  · have hb0 : s.currentSDOff = 0 := hb hB
    simp only [beamOffTransfer, if_neg hlev, if_pos hB]
    by_cases hT : s.nWordsTotal - min (NDPWORDS - 1) s.nWordsTotal = 0
    · simp only [if_pos hT, hb0, hB, if_pos rfl]
      refine ⟨?_, trivial, trivial, trivial, trivial, trivial, trivial⟩
      rw [range_map_getD_eq s.sd 0 _ (by omega)]
    · simp only [if_neg hT, hb0, hB, if_pos rfl]
      refine ⟨?_, trivial, trivial, trivial, trivial, trivial, (List.append_nil _).symm⟩
      rw [range_map_getD_eq s.sd 0 _ (by omega)]
  · simp only [beamOffTransfer, if_neg hlev, if_neg hB]
    by_cases hT : s.nWordsTotal - min (NDPWORDS - 1) s.nWordsTotal = 0
    · simp only [if_pos hT]
      refine ⟨?_, trivial, trivial, trivial, trivial, trivial, trivial⟩
      rw [range_map_getD_eq s.sd s.currentSDOff _ (by omega)]
    · simp only [if_neg hT]
      refine ⟨?_, trivial, trivial, trivial, trivial, trivial, (List.append_nil _).symm⟩
      rw [range_map_getD_eq s.sd s.currentSDOff _ (by omega)]

/-- C2: every `beamOffTransfer` invocation that passes the level check
computes `n = min(NDPWORDS - 1, nWordsTotal)`, writes the mailbox as `n`
followed by exactly `n` words taken from the staging buffer at the read
cursor, decrements `nWordsTotal` by `n`, and ends in `READY` exactly when
the remaining count is 0.  (Hypotheses: the state is beam-on or beam-off or
already fully drained, and the read cursor is consistent with the backlog.) -/
theorem drain_batch_correct (s : Sys) (lev : Nat) (hlev : lev ≠ 1)
    (hst : s.state = BOS ∨ s.state = EOS ∨ s.nWordsTotal = 0)
    (hb : s.state = BOS → s.currentSDOff = 0)
    (hc : s.currentSDOff + s.nWordsTotal = s.sd.length) :
    (beamOffTransfer s lev).mailbox =
      min (NDPWORDS - 1) s.nWordsTotal ::
        (s.sd.drop s.currentSDOff).take (min (NDPWORDS - 1) s.nWordsTotal) ∧
    ((beamOffTransfer s lev).mailbox.drop 1).length
      = min (NDPWORDS - 1) s.nWordsTotal ∧
    (beamOffTransfer s lev).sys.nWordsTotal
      = s.nWordsTotal - min (NDPWORDS - 1) s.nWordsTotal ∧
    ((beamOffTransfer s lev).sys.state = READY ↔
      s.nWordsTotal - min (NDPWORDS - 1) s.nWordsTotal = 0) := by
  obtain ⟨hm, ht, -, -, -, hstate, -⟩ := beamOff_fires s lev hlev hb hc
  refine ⟨hm, ?_, ht, ?_⟩
  · rw [hm, List.drop_one, List.tail_cons, List.length_take, List.length_drop]
    omega
  · rw [hstate]
    constructor
    · intro h
      by_contra hT
      rw [if_neg hT] at h
      rcases hst with h1 | h1 | h1
      · rw [if_pos h1] at h
        exact absurd h (by decide)
      · rw [h1] at h
        rw [if_neg (by decide)] at h
        exact absurd h (by decide)
      · exact hT (by omega)
    · intro h
      rw [if_pos h]

/-- C2 witness: from the concrete beam-off state with 3 staged words, the
drain call at level 0 emits the mailbox `[3, 11, 22, 33]`. -/
theorem drain_batch_correct_witness :
    (beamOffTransfer sysDrain 0).mailbox =
      min (NDPWORDS - 1) sysDrain.nWordsTotal ::
        (sysDrain.sd.drop sysDrain.currentSDOff).take
          (min (NDPWORDS - 1) sysDrain.nWordsTotal) :=
  (drain_batch_correct sysDrain 0 (by decide) (Or.inr (Or.inl rfl)) (by decide) rfl).1

/-- C4: every atomic step of the system writes the `state` global only along
the cycle READY → BOS → EOS → READY (or leaves it alone): every write in the
step's trace follows `cycleOK` from the previous value, the step ends on the
last written value, membership in the three-state set is preserved, and the
two transitions the design forbids — BOS directly to READY and EOS back to
BOS — are not in `cycleOK` at all.  In particular an `ingest` step has an
empty trace: beam-on is exited only by the drain handler, never by the
ingest loop. -/
theorem spill_state_cycle (s : Sys) (tr : List Nat) (s2 : Sys)
    (hst : s.state = BOS ∨ s.state = EOS ∨ s.state = READY)
    (h : SysStep s tr s2) :
    List.Chain cycleOK s.state tr ∧
    s2.state = tr.getLastD s.state ∧
    (s2.state = BOS ∨ s2.state = EOS ∨ s2.state = READY) ∧
    ¬ cycleOK BOS READY ∧ ¬ cycleOK EOS BOS := by
  have hnr1 : ¬ cycleOK BOS READY := by decide
  have hnr2 : ¬ cycleOK EOS BOS := by decide
  have cBE : cycleOK BOS EOS := Or.inr (Or.inr (Or.inl ⟨rfl, rfl⟩))
  have cER : cycleOK EOS READY := Or.inr (Or.inr (Or.inr ⟨rfl, rfl⟩))
  have cRR : cycleOK READY READY := Or.inl rfl
  cases h with
  | enterBeamOn hR =>
    exact ⟨List.Chain.cons (Or.inr (Or.inl ⟨hR, rfl⟩)) List.Chain.nil,
      rfl, Or.inl rfl, hnr1, hnr2⟩
  | ingest obs r hB h2 =>
    obtain ⟨s3, c, header⟩ := r
    obtain ⟨-, -, -, hstq, -, -⟩ := ingestIter_some h2
    refine ⟨List.Chain.nil, hstq, ?_, hnr1, hnr2⟩
    show s3.state = BOS ∨ s3.state = EOS ∨ s3.state = READY
    rw [hstq]
    exact hst
  | drain lev =>
    by_cases hlev : lev = 1
    · simp only [beamOffTransfer, if_pos hlev]
      exact ⟨List.Chain.nil, rfl, hst, hnr1, hnr2⟩
    · rcases hst with h1 | h1 | h1
      · simp only [beamOffTransfer, if_neg hlev, if_pos h1]
        by_cases hT : s.nWordsTotal - min (NDPWORDS - 1) s.nWordsTotal = 0
        · simp only [if_pos hT]
          rw [h1]
          exact ⟨List.Chain.cons cBE (List.Chain.cons cER List.Chain.nil),
            by decide, by decide, hnr1, hnr2⟩
        · simp only [if_neg hT]
          rw [h1]
          exact ⟨List.Chain.cons cBE List.Chain.nil, by decide, by decide, hnr1, hnr2⟩
      · have hB : ¬ s.state = BOS := by rw [h1]; decide
        simp only [beamOffTransfer, if_neg hlev, if_neg hB]
        by_cases hT : s.nWordsTotal - min (NDPWORDS - 1) s.nWordsTotal = 0
        · simp only [if_pos hT]
          rw [h1]
          exact ⟨List.Chain.cons cER List.Chain.nil, by decide, by decide, hnr1, hnr2⟩
        · simp only [if_neg hT]
          rw [h1]
          exact ⟨List.Chain.nil, by decide, by decide, hnr1, hnr2⟩
      · have hB : ¬ s.state = BOS := by rw [h1]; decide
        simp only [beamOffTransfer, if_neg hlev, if_neg hB]
        by_cases hT : s.nWordsTotal - min (NDPWORDS - 1) s.nWordsTotal = 0
        · simp only [if_pos hT]
          rw [h1]
          exact ⟨List.Chain.cons cRR List.Chain.nil, by decide, by decide, hnr1, hnr2⟩
        · simp only [if_neg hT]
          rw [h1]
          exact ⟨List.Chain.nil, by decide, by decide, hnr1, hnr2⟩

/-- C4 witness: a drain step from the concrete beam-off state fully drains
the 3 staged words, writing EOS-to-READY transitions only along the cycle. -/
theorem spill_state_cycle_witness :
    List.Chain cycleOK sysDrain.state (beamOffTransfer sysDrain 0).stTrace ∧
    (beamOffTransfer sysDrain 0).sys.state
      = ((beamOffTransfer sysDrain 0).stTrace).getLastD sysDrain.state ∧
    ((beamOffTransfer sysDrain 0).sys.state = BOS ∨
      (beamOffTransfer sysDrain 0).sys.state = EOS ∨
      (beamOffTransfer sysDrain 0).sys.state = READY) ∧
    ¬ cycleOK BOS READY ∧ ¬ cycleOK EOS BOS :=
  spill_state_cycle sysDrain _ _ (Or.inr (Or.inl rfl)) (SysStep.drain sysDrain 0)

/-- Successive level-0 drain calls walk the staging buffer in chunks of
`NDPWORDS - 1` words: the concatenation of the first `j` mailbox bodies is
the next `j * (NDPWORDS - 1)` staged words from the read cursor. -/
theorem drainBodies_eq (j : Nat) : ∀ s : Sys,
    (s.state = BOS → s.currentSDOff = 0) →
    s.currentSDOff + s.nWordsTotal = s.sd.length →
    drainBodies s j = (s.sd.drop s.currentSDOff).take (j * (NDPWORDS - 1)) := by
  induction j with
  | zero =>
    intro s hb hc
    simp only [drainBodies, Nat.zero_mul, List.take_zero]
  | succ j ih =>
    intro s hb hc
    have hm32 : NDPWORDS - 1 = 32767 := rfl
    obtain ⟨hm, ht, hoff, hsd, -, hstate, -⟩ := beamOff_fires s 0 (by decide) hb hc
    have hb2 : (beamOffTransfer s 0).sys.state = BOS →
        (beamOffTransfer s 0).sys.currentSDOff = 0 := by
      intro hx
      rw [hstate] at hx
      by_cases hT : s.nWordsTotal - min (NDPWORDS - 1) s.nWordsTotal = 0
      · rw [if_pos hT] at hx
        exact absurd hx (by decide)
      · rw [if_neg hT] at hx
        by_cases hB : s.state = BOS
        · rw [if_pos hB] at hx
          exact absurd hx (by decide)
        · rw [if_neg hB] at hx
          exact absurd hx hB
    have hc2 : (beamOffTransfer s 0).sys.currentSDOff +
        (beamOffTransfer s 0).sys.nWordsTotal = (beamOffTransfer s 0).sys.sd.length := by
      rw [hoff, ht, hsd]
      rw [hm32] at *
      omega
    have hbody : (beamOffTransfer s 0).mailbox.tail =
        (s.sd.drop s.currentSDOff).take (min (NDPWORDS - 1) s.nWordsTotal) := by
      rw [hm, List.tail_cons]
    simp only [drainBodies]
    rw [hbody, ih _ hb2 hc2, hoff, hsd, ← List.drop_drop]
    rw [hm32] at *
    by_cases hcase : 32767 ≤ s.nWordsTotal
    · rw [min_eq_left hcase]
      rw [Nat.succ_mul, Nat.add_comm (j * 32767) 32767, List.take_add]
    · have hn2 : min 32767 s.nWordsTotal = s.nWordsTotal :=
        min_eq_right (Nat.le_of_not_le hcase)
      rw [hn2]
      have hL : (s.sd.drop s.currentSDOff).length = s.nWordsTotal := by
        rw [List.length_drop]
        omega
      have e1 : (s.sd.drop s.currentSDOff).take s.nWordsTotal
          = s.sd.drop s.currentSDOff := List.take_of_length_le (by rw [hL])
      have e2 : List.drop s.nWordsTotal (s.sd.drop s.currentSDOff) = [] :=
        List.drop_eq_nil_of_le (by rw [hL])
      have e3 : (s.sd.drop s.currentSDOff).take (Nat.succ j * 32767)
          = s.sd.drop s.currentSDOff := List.take_of_length_le (by rw [hL]; omega)
      rw [e1, e2, List.take_nil, List.append_nil, e3]

/-- C5 counterexample: the record in bank 1 (header `hdrTwo` with word count
2, payload word 5, footer 77) is staged and then drained into the mailbox as
`[3, hdrTwo, 6, 77]` — the count word is `n + 1 = 3`, not `n = 2`, and the
payload word arrives incremented — so the mailbox is not the claimed
`[n, h, p0, f] = [2, hdrTwo, 5, 77]`. -/
theorem record_roundtrip_claim_false :
    (beamOffTransfer sysRec 0).mailbox = [3, hdrTwo, 6, 77] ∧
    wordCount hdrTwo = 2 ∧
    memOne (dpBankStartAddr 1 + 1) = 5 ∧
    memOne (dpBankLastAddr 1) = 77 ∧
    (beamOffTransfer sysRec 0).mailbox ≠ [wordCount hdrTwo, hdrTwo, 5, 77] := by
  decide

/-- C5 (amended): a record staged with header `h` (count `n ≥ 1`), whose
payload is bumped by one mod 2^32 by the line-148 test instrumentation, is
drained as count word `min(NDPWORDS - 1, n + 1)` followed by that many
staged words; the count word always equals the number of words after it;
and `j` successive drains deliver the staged words in order, truncated to
`NDPWORDS - 1` words per call with the remainder on later calls. -/
theorem record_roundtrip_amended (mem : Nat → Nat) (b header : Nat)
    (hpos : 1 ≤ wordCount header) (s : Sys)
    (hsd : s.sd = recordWords mem b header) (hoff : s.currentSDOff = 0)
    (htot : s.nWordsTotal = s.sd.length) (hst : s.state = BOS) :
    recordWords mem b header =
      header :: ((List.range (wordCount header - 1)).map
          (fun k => (mem (dpBankStartAddr b + 1 + k) + 1) % wordMod)
        ++ [mem (dpBankLastAddr b)]) ∧
    (beamOffTransfer s 0).mailbox =
      min (NDPWORDS - 1) (wordCount header + 1) ::
        (recordWords mem b header).take (min (NDPWORDS - 1) (wordCount header + 1)) ∧
    ((beamOffTransfer s 0).mailbox.drop 1).length
      = min (NDPWORDS - 1) (wordCount header + 1) ∧
    (∀ j, drainBodies s j = (recordWords mem b header).take (j * (NDPWORDS - 1))) := by
  have hlen : (recordWords mem b header).length = wordCount header + 1 := by
    rw [recordWords_length, payloadCount_of_pos hpos (wordCount_lt header)]
    omega
  have hb : s.state = BOS → s.currentSDOff = 0 := fun _ => hoff
  have hc : s.currentSDOff + s.nWordsTotal = s.sd.length := by
    rw [hoff, htot]
    exact Nat.zero_add _
  have htn : s.nWordsTotal = wordCount header + 1 := by rw [htot, hsd, hlen]
  obtain ⟨hm, -, -, -, -, -, -⟩ := beamOff_fires s 0 (by decide) hb hc
  refine ⟨?_, ?_, ?_, ?_⟩
  · unfold recordWords
    rw [payloadCount_of_pos hpos (wordCount_lt header)]
  · rw [hm, htn, hoff, List.drop_zero, hsd]
  · rw [hm, List.drop_one, List.tail_cons, List.length_take, hoff, List.drop_zero,
      hsd, hlen, htn]
    omega
  · intro j
    rw [drainBodies_eq j s hb hc, hoff, List.drop_zero, hsd]

/-- C5 witness: the staged bank-1 record drains from `sysRec` exactly as the
amended round trip states. -/
theorem record_roundtrip_amended_witness :
    (beamOffTransfer sysRec 0).mailbox =
      min (NDPWORDS - 1) (wordCount hdrTwo + 1) ::
        (recordWords memOne 1 hdrTwo).take (min (NDPWORDS - 1) (wordCount hdrTwo + 1)) :=
  (record_roundtrip_amended memOne 1 hdrTwo (by decide) sysRec rfl rfl rfl rfl).2.1

/-- Folding the push operations for `ws` just appends `ws` to SDRAM. -/
theorem applyOps_pushes (ws : List Nat) : ∀ st : MicroState,
    applyOps st (ws.map MicroOp.pushSD) = { st with sd := st.sd ++ ws } := by
  induction ws with
  | nil =>
    intro st
    rw [List.map_nil, List.append_nil]
    rfl
  | cons w ws ih =>
    intro st
    rw [List.map_cons]
    show applyOps (applyOp st (MicroOp.pushSD w)) (ws.map MicroOp.pushSD) = _
    rw [ih]
    show ({ st with sd := (st.sd ++ [w]) ++ ws } : MicroState) = _
    rw [List.append_assoc, List.singleton_append]

/-- Operations that never assign `nWordsTotal` leave it unchanged. -/
theorem applyOps_no_set (ops : List MicroOp) : ∀ st : MicroState,
    (∀ op ∈ ops, isSetTotal op = false) →
    (applyOps st ops).nWordsTotal = st.nWordsTotal := by
  induction ops with
  | nil =>
    intro st h
    rfl
  | cons op ops ih =>
    intro st h
    show (applyOps (applyOp st op) ops).nWordsTotal = st.nWordsTotal
    rw [ih _ (fun x hx => h x (List.mem_cons_of_mem _ hx))]
    cases op with
    | pushSD w => rfl
    | clearHeader b => rfl
    | setTotal n =>
      have hfalse := h _ (List.mem_cons_self _ _)
      exact absurd hfalse (by intro hx; exact Bool.noConfusion hx)

/-- Folding distributes over appended operation lists. -/
theorem applyOps_append (st : MicroState) (a c : List MicroOp) :
    applyOps st (a ++ c) = applyOps (applyOps st a) c := by
  unfold applyOps
  rw [List.foldl_append]

/-- A list of push operations contains no `setTotal`. -/
theorem pushes_no_set (ws : List Nat) :
    ∀ op ∈ ws.map MicroOp.pushSD, isSetTotal op = false := by
  intro op hop
  obtain ⟨w, -, hw⟩ := List.mem_map.mp hop
  rw [← hw]
  rfl

/-- C10: the record-copy operation sequence of one ingest iteration assigns
`nWordsTotal` exactly once, as its very last operation, after all pushes and
after the header clear; every proper prefix leaves `nWordsTotal` at the
pre-record value `base`, and after the full sequence `nWordsTotal` again
equals the staging length — the occupied count only ever accounts for whole
records. -/
theorem total_update_once_per_record (mem : Nat → Nat) (b header base : Nat)
    (st : MicroState) (hn : st.nWordsTotal = base) (hl : st.sd.length = base) :
    (recordTrace mem b header base).countP isSetTotal = 1 ∧
    (∃ pre, recordTrace mem b header base =
        pre ++ [MicroOp.setTotal (base + (recordWords mem b header).length)] ∧
      ∀ op ∈ pre, isSetTotal op = false) ∧
    (∀ k, k < (recordTrace mem b header base).length →
      (applyOps st ((recordTrace mem b header base).take k)).nWordsTotal = base) ∧
    (applyOps st (recordTrace mem b header base)).nWordsTotal
      = (applyOps st (recordTrace mem b header base)).sd.length := by
  have hsplit : recordTrace mem b header base =
      ((recordWords mem b header).map MicroOp.pushSD ++ [MicroOp.clearHeader b]) ++
        [MicroOp.setTotal (base + (recordWords mem b header).length)] := by
    unfold recordTrace
    rw [List.append_assoc]
    rfl
  have hpre : ∀ op ∈ (recordWords mem b header).map MicroOp.pushSD ++
      [MicroOp.clearHeader b], isSetTotal op = false := by
    intro op hop
    rcases List.mem_append.mp hop with h1 | h1
    · exact pushes_no_set _ op h1
    · rw [List.mem_singleton.mp h1]
      rfl
  refine ⟨?_, ⟨_, hsplit, hpre⟩, ?_, ?_⟩
  · rw [hsplit, List.countP_append, List.countP_eq_zero.mpr ?_, List.countP_cons,
      List.countP_nil]
    · rfl
    · intro op hop
      rw [hpre op hop]
      exact Bool.false_ne_true
  · intro k hk
    have hklen : k ≤ ((recordWords mem b header).map MicroOp.pushSD ++
        [MicroOp.clearHeader b]).length := by
      rw [hsplit, List.length_append] at hk
      simp only [List.length_singleton] at hk
      omega
    rw [hsplit, List.take_append_of_le_length hklen,
      applyOps_no_set _ st (fun op hop => hpre op (List.take_subset k _ hop)), hn]
  · rw [hsplit, applyOps_append, applyOps_append, applyOps_pushes]
    show base + (recordWords mem b header).length
      = (st.sd ++ recordWords mem b header).length
    rw [List.length_append, hl]

/-- C10 witness: the trace for the concrete bank-1 record from an empty
staging buffer assigns `nWordsTotal` exactly once. -/
theorem total_update_once_per_record_witness :
    (recordTrace memOne 1 hdrTwo 0).countP isSetTotal = 1 :=
  (total_update_once_per_record memOne 1 hdrTwo 0 ⟨[], 0, memOne⟩ rfl rfl).1
